import Mathlib

/-!
Verification of the build-cache resolution and Dockerfile-rewriting
subsystem of oss-fuzz-gen.  The definitions below are shallow embeddings
of the Python functions in `utils.py` and
`experiment/oss_fuzz_checkout.py`; the theorems settle the frozen claims
about them.
-/

namespace OssFuzzGen

/-! ### The retry wrapper (`utils.retryable`)

`retryable` wraps a function in a `while True` loop with a single
`attempt` counter starting at 1.  On an exception `e` it computes
`num_attempts = next((a for t, a in exception_config.items() if type(e) is t), 1)`
and re-raises once `attempt >= num_attempts`, otherwise sleeps and
increments `attempt`.  We model failure kinds as an arbitrary type `K`
with decidable equality (Python's `type(e) is exc_type` is exact-type
comparison), the configured budgets as an association list, and the
outcome of the n-th invocation of the wrapped function as `f n`. -/

/-- Budget lookup performed on each failure inside `retryable`'s wrapper:
first entry of `exception_config` whose kind equals the failure's exact
kind; default 1 when no entry matches. -/
def numAttempts {K : Type} [DecidableEq K] : List (K × Nat) → K → Nat
  | [], _ => 1
  | (k, n) :: rest, e => if k = e then n else numAttempts rest e

/-- Upper bound on every configured budget (used only to supply enough
fuel to the loop; the source loop needs no fuel because it re-raises). -/
def maxBudget {K : Type} (config : List (K × Nat)) : Nat :=
  config.foldr (fun p acc => max p.2 acc) 1

/-- The `while True` loop of `retryable`'s `wrapper`.  `f n` is the
outcome of the n-th invocation (1-indexed, matching `attempt`).  The
result pairs the propagated outcome with the number of invocations
performed.  `fuel` bounds the recursion; `retryableRun` supplies enough
fuel for the bound to be unreachable. -/
def retryLoop {K A : Type} [DecidableEq K] (config : List (K × Nat)) (f : Nat → Except K A) : Nat → Nat → Option (Except K A × Nat)
  | 0, _ => none
  | fuel + 1, attempt =>
    match f attempt with
    | Except.ok a => some (Except.ok a, attempt)
    | Except.error e =>
      if numAttempts config e ≤ attempt then some (Except.error e, attempt)
      else retryLoop config f fuel (attempt + 1)

/-- A full run of the wrapper produced by `retryable`: the loop started
at `attempt = 1`. -/
def retryableRun {K A : Type} [DecidableEq K] (config : List (K × Nat)) (f : Nat → Except K A) : Option (Except K A × Nat) :=
  retryLoop config f (maxBudget config + 1) 1

theorem numAttempts_le_maxBudget {K : Type} [DecidableEq K] (config : List (K × Nat)) (e : K) : numAttempts config e ≤ maxBudget config := by
  induction config with
  | nil => simp [numAttempts, maxBudget]
  | cons p rest ih =>
    obtain ⟨k, n⟩ := p
    by_cases hk : k = e
    · simp [numAttempts, maxBudget, hk]
    · simp only [numAttempts, maxBudget, List.foldr, if_neg hk]
      exact le_trans ih (Nat.le_max_right _ _)

theorem numAttempts_eq_one_of_unlisted {K : Type} [DecidableEq K] (config : List (K × Nat)) (e : K) (h : ∀ p ∈ config, p.1 ≠ e) : numAttempts config e = 1 := by
  induction config with
  | nil => rfl
  | cons p rest ih =>
    obtain ⟨k, n⟩ := p
    have hk : k ≠ e := h (k, n) (List.mem_cons_self _ _)
    simp only [numAttempts, if_neg hk]
    exact ih fun q hq => h q (List.mem_cons_of_mem _ hq)

theorem retryLoop_propagates {K A : Type} [DecidableEq K] (config : List (K × Nat)) (f : Nat → Except K A) (n : Nat) (e : K) (hfn : f n = Except.error e) (hbudget : numAttempts config e ≤ n) : ∀ fuel attempt, 1 ≤ attempt → attempt ≤ n → (∀ i, attempt ≤ i → i < n → ∃ k, f i = Except.error k ∧ i < numAttempts config k) → n - attempt < fuel → retryLoop config f fuel attempt = some (Except.error e, n) := by
  intro fuel
  induction fuel with
  | zero => intro attempt _ h2 _ hlt; omega
  | succ fuel ih =>
    intro attempt h1 h2 hbefore hlt
    by_cases hat : attempt = n
    · subst hat
      simp [retryLoop, hfn, hbudget]
    · have hlt2 : attempt < n := lt_of_le_of_ne h2 hat
      obtain ⟨k, hk, hklt⟩ := hbefore attempt le_rfl hlt2
      have hnot : ¬ numAttempts config k ≤ attempt := by omega
      simp only [retryLoop, hk]
      rw [if_neg hnot]
      exact ih (attempt + 1) (by omega) (by omega) (fun i hi1 hi2 => hbefore i (by omega) hi2) (by omega)

/-- C5: with a failure budget mapping kind `kA` to 3, an operation that
always fails with `kA` is invoked exactly 3 times and then the failure
propagates; an operation that always fails with a kind listed nowhere in
the budget is invoked exactly once and the failure propagates
immediately. -/
theorem c5_retry_budget {K A : Type} [DecidableEq K] (kA e : K) (config : List (K × Nat)) (f g : Nat → Except K A) (hf : ∀ n, f n = Except.error kA) (hg : ∀ n, g n = Except.error e) (he : ∀ p ∈ config, p.1 ≠ e) : retryableRun [(kA, 3)] f = some (Except.error kA, 3) ∧ retryableRun config g = some (Except.error e, 1) := by
  constructor
  · have hmax : maxBudget [(kA, 3)] = 3 := by simp [maxBudget]
    have hnum : numAttempts [(kA, 3)] kA = 3 := by simp [numAttempts]
    rw [retryableRun, hmax]
    rw [show (3 + 1 : Nat) = 4 from rfl]
    simp only [retryLoop, hf, hnum]
    norm_num
  · have hnum : numAttempts config e = 1 := numAttempts_eq_one_of_unlisted config e he
    rw [retryableRun]
    rcases Nat.exists_eq_add_of_lt (Nat.lt_succ_of_le (Nat.zero_le (maxBudget config))) with ⟨m, hm⟩
    rw [show maxBudget config + 1 = (maxBudget config) + 1 from rfl]
    simp only [retryLoop, hg, hnum]
    norm_num

/-- Witness for C5 at a concrete kind type and concrete operations. -/
theorem c5_witness : retryableRun [((0 : Nat), 3)] (fun _ => (Except.error 0 : Except Nat Unit)) = some (Except.error 0, 3) ∧ retryableRun [((0 : Nat), 3)] (fun _ => (Except.error 1 : Except Nat Unit)) = some (Except.error 1, 1) :=
  c5_retry_budget 0 1 [(0, 3)] (fun _ => Except.error 0) (fun _ => Except.error 1) (fun _ => rfl) (fun _ => rfl) (by decide)

/-- C6: failure classification is by exact kind only.  For any failure
kind `e` not literally listed in the budget, the budget used is 1 and the
operation is invoked exactly once, even when some listed kind is a
super-kind of `e` under an arbitrary kind hierarchy `sub` and carries a
budget larger than 1. -/
theorem c6_exact_kind_matching {K A : Type} [DecidableEq K] (sub : K → K → Prop) (config : List (K × Nat)) (e : K) (f : Nat → Except K A) (hunlisted : ∀ p ∈ config, p.1 ≠ e) (_hbroader : ∃ p ∈ config, sub e p.1 ∧ 1 < p.2) (hf : ∀ n, f n = Except.error e) : numAttempts config e = 1 ∧ retryableRun config f = some (Except.error e, 1) := by
  have hnum : numAttempts config e = 1 := numAttempts_eq_one_of_unlisted config e hunlisted
  refine ⟨hnum, ?_⟩
  rw [retryableRun]
  simp only [retryLoop, hf, hnum]
  norm_num

/-- Witness for C6: kind 11 is a sub-kind of kind 10 under the chosen
hierarchy, kind 10 is budgeted 5, yet a failure of kind 11 gets budget 1
and propagates after a single invocation. -/
theorem c6_witness : numAttempts [((10 : Nat), 5)] 11 = 1 ∧ retryableRun [((10 : Nat), 5)] (fun _ => (Except.error 11 : Except Nat Unit)) = some (Except.error 11, 1) :=
  c6_exact_kind_matching (fun a b => b + 1 = a) [(10, 5)] 11 (fun _ => Except.error 11) (by decide) ⟨(10, 5), List.mem_singleton.mpr rfl, by omega, by omega⟩ (fun _ => rfl)

/-- C10: one attempt counter is shared across all failure kinds.  If
every invocation before the n-th fails with some kind whose budget still
exceeds the running attempt count, and the n-th invocation fails with a
kind `e` whose budget is at most `n`, then the failure propagates after
exactly `n` invocations — even when no earlier failure had kind `e`. -/
theorem c10_shared_attempt_counter {K A : Type} [DecidableEq K] (config : List (K × Nat)) (f : Nat → Except K A) (n : Nat) (e : K) (hn : 1 ≤ n) (hbefore : ∀ i, 1 ≤ i → i < n → ∃ k, f i = Except.error k ∧ i < numAttempts config k) (hfn : f n = Except.error e) (hbudget : numAttempts config e ≤ n) : retryableRun config f = some (Except.error e, n) := by
  have hfuel : n - 1 < maxBudget config + 1 := by
    rcases Nat.eq_or_lt_of_le hn with h | h
    · omega
    · obtain ⟨k, _, hklt⟩ := hbefore (n - 1) (by omega) (by omega)
      have := numAttempts_le_maxBudget config k
      omega
  exact retryLoop_propagates config f n e hfn hbudget _ 1 le_rfl hn hbefore hfuel

/-- Witness for C10: kind 0 has budget 5, kind 1 has budget 2.  The
first invocation fails with kind 0, the second with kind 1; the single
kind-1 failure propagates because the shared counter already reads 2. -/
theorem c10_witness : retryableRun [((0 : Nat), 5), (1, 2)] (fun i => if i = 1 then (Except.error 0 : Except Nat Unit) else Except.error 1) = some (Except.error 1, 2) := by
  have h := c10_shared_attempt_counter [((0 : Nat), 5), (1, 2)] (fun i => if i = 1 then (Except.error 0 : Except Nat Unit) else Except.error 1) 2 1 (by omega) (fun i h1 h2 => by
    have hi : i = 1 := by omega
    subst hi
    exact ⟨0, rfl, by decide⟩) rfl (by decide)
  exact h

/-! ### Cache image naming (`_get_project_cache_image_name`, `_get_project_cache_name`) -/

/-- `_get_project_cache_image_name`: the remote image reference derived
from a `(project, sanitizer)` pair. -/
def cacheImageName (project sanitizer : String) : String :=
  "us-central1-docker.pkg.dev/oss-fuzz/oss-fuzz-gen/" ++ (project ++ "-ofg-cached-" ++ sanitizer)

/-- `_get_project_cache_name`: the local container name for a project. -/
def cacheContainerName (project : String) : String :=
  "gcr.io.oss-fuzz." ++ project ++ "_cache"

/-- C7 counterexample: two pairs that differ in the project component
(and in the sanitizer component) map to the same image reference, so the
derivation is not injective over all pairs. -/
theorem c7_counterexample : cacheImageName "a-ofg-cached-b" "c" = cacheImageName "a" "b-ofg-cached-c" ∧ ("a-ofg-cached-b" : String) ≠ "a" ∧ ("c" : String) ≠ "b-ofg-cached-c" := by
  refine ⟨rfl, by decide, by decide⟩

/-- C7 amended: the derivation is a pure deterministic function of the
pair, and it is injective in each component separately — two pairs that
share one component and differ in the other receive distinct references.
(Pairs differing in both components may collide, per the
counterexample.) -/
theorem c7_amended_injective_componentwise : (∀ p s, cacheImageName p s = cacheImageName p s) ∧ (∀ p s1 s2, cacheImageName p s1 = cacheImageName p s2 → s1 = s2) ∧ (∀ p1 p2 s, cacheImageName p1 s = cacheImageName p2 s → p1 = p2) := by
  refine ⟨fun p s => rfl, ?_, ?_⟩
  · intro p s1 s2 h
    have hd := congrArg String.data h
    simp only [cacheImageName, String.data_append] at hd
    exact String.ext (List.append_cancel_left (List.append_cancel_left hd))
  · intro p1 p2 s h
    have hd := congrArg String.data h
    simp only [cacheImageName, String.data_append] at hd
    have hd2 := List.append_cancel_left hd
    rw [List.append_assoc, List.append_assoc] at hd2
    exact String.ext (List.append_cancel_right hd2)

/-- Witness for C7's amended statement at concrete inputs. -/
theorem c7_witness : ("address" : String) = "address" ∧ ("libxml2" : String) = "libxml2" :=
  ⟨c7_amended_injective_componentwise.2.1 "libxml2" "address" "address" rfl, c7_amended_injective_componentwise.2.2 "libxml2" "libxml2" "coverage" rfl⟩

/-! ### Docker tag sanitization (`rectify_docker_tag`)

The Python function applies three regex substitutions in order:
`re.sub(r"::", "-", t)`, `re.sub(r"[^\w_.]", "-", t)` and
`re.sub(r"[-_]{2,}", "-", t)`.  We model a character as matching `\w`
when it is alphanumeric or an underscore (the ASCII view of Python's
word class; the claims are insensitive to the exact extent of the
class). -/

def isSepChar (c : Char) : Bool := c = '-' || c = '_'

def isWordChar (c : Char) : Bool := c.isAlphanum || c = '_'

/-- `re.sub(r"::", "-", s)`: replace each non-overlapping occurrence of
`::` by `-`, scanning left to right. -/
def replaceDoubleColon : List Char → List Char
  | [] => []
  | [c] => [c]
  | c1 :: c2 :: rest =>
    if c1 = ':' && c2 = ':' then '-' :: replaceDoubleColon rest
    else c1 :: replaceDoubleColon (c2 :: rest)

/-- `re.sub(r"[^\w_.]", "-", s)`: replace every character outside the
word class and `.` by `-`. -/
def dropIllegal (l : List Char) : List Char :=
  l.map fun c => if isWordChar c || c = '.' then c else '-'

/-- `re.sub(r"[-_]{2,}", "-", s)`: replace every maximal run of two or
more characters from `[-_]` by a single `-` (a lone `-` or `_` is kept
as it is).  `fuel` bounds the recursion; `collapseSeps` supplies the
input length, which is always enough. -/
def collapseSepsAux : Nat → List Char → List Char
  | 0, l => l
  | _ + 1, [] => []
  | _ + 1, [c] => [c]
  | fuel + 1, c :: c2 :: rest2 =>
    if isSepChar c then
      if isSepChar c2 then '-' :: collapseSepsAux fuel (rest2.dropWhile isSepChar)
      else c :: collapseSepsAux fuel (c2 :: rest2)
    else c :: collapseSepsAux fuel (c2 :: rest2)

def collapseSeps (l : List Char) : List Char := collapseSepsAux l.length l

/-- `rectify_docker_tag`: the three substitutions applied in order. -/
def rectify_docker_tag (s : String) : String :=
  ⟨collapseSeps (dropIllegal (replaceDoubleColon s.data))⟩

/-- A character legal in the sanitized reference alphabet: word
characters, `.`, and the separator `-`. -/
def legalTagChar (c : Char) : Prop := isWordChar c = true ∨ c = '.' ∨ c = '-'

/-- No two adjacent characters are both separator characters. -/
def noAdjSeps (l : List Char) : Prop :=
  List.Chain' (fun a b => ¬(isSepChar a = true ∧ isSepChar b = true)) l

theorem legalTagChar_ne_colon {c : Char} (h : legalTagChar c) : c ≠ ':' := by
  rcases h with h | h | h
  · intro hc; subst hc; exact absurd h (by decide)
  · intro hc; subst hc; exact absurd h (by decide)
  · intro hc; subst hc; exact absurd h (by decide)

theorem dropIllegal_mem (l : List Char) : ∀ c ∈ dropIllegal l, legalTagChar c := by
  intro c hc
  simp only [dropIllegal, List.mem_map] at hc
  obtain ⟨a, _, rfl⟩ := hc
  by_cases h : isWordChar a || a = '.'
  · rw [if_pos h]
    rcases Bool.or_eq_true_iff.mp h with h1 | h1
    · exact Or.inl h1
    · exact Or.inr (Or.inl (by simpa using h1))
  · rw [if_neg h]
    exact Or.inr (Or.inr rfl)

theorem collapseSepsAux_mem (Q : Char → Prop) (hdash : Q '-') : ∀ fuel l, (∀ c ∈ l, Q c) → ∀ c ∈ collapseSepsAux fuel l, Q c := by
  intro fuel
  induction fuel with
  | zero => intro l h; exact h
  | succ fuel ih =>
    intro l h c hc
    match l with
    | [] => simp [collapseSepsAux] at hc
    | [c0] =>
      simp only [collapseSepsAux, List.mem_singleton] at hc
      exact hc ▸ h c0 (List.mem_cons_self _ _)
    | c0 :: c2 :: rest2 =>
      simp only [collapseSepsAux] at hc
      have htail : ∀ x ∈ c2 :: rest2, Q x := fun x hx => h x (List.mem_cons_of_mem _ hx)
      by_cases h0 : isSepChar c0
      · rw [if_pos h0] at hc
        by_cases h2 : isSepChar c2
        · rw [if_pos h2] at hc
          rcases List.mem_cons.mp hc with rfl | hc2
          · exact hdash
          · refine ih _ ?_ c hc2
            intro x hx
            exact htail x (List.mem_cons_of_mem _ ((List.dropWhile_sublist isSepChar).mem hx))
        · rw [if_neg h2] at hc
          rcases List.mem_cons.mp hc with rfl | hc2
          · exact h c (List.mem_cons_self _ _)
          · exact ih _ htail c hc2
      · rw [if_neg h0] at hc
        rcases List.mem_cons.mp hc with rfl | hc2
        · exact h c (List.mem_cons_self _ _)
        · exact ih _ htail c hc2

theorem head?_dropWhile_not (p : Char → Bool) : ∀ (l : List Char) (h : Char), (l.dropWhile p).head? = some h → p h = false := by
  intro l
  induction l with
  | nil => intro h hh; simp [List.dropWhile] at hh
  | cons a t ih =>
    intro h hh
    rw [List.dropWhile_cons] at hh
    by_cases ha : p a
    · rw [if_pos ha] at hh
      exact ih h hh
    · rw [if_neg ha] at hh
      simp only [List.head?_cons, Option.some.injEq] at hh
      rw [← hh]
      exact Bool.of_not_eq_true ha

theorem collapseSepsAux_chain : ∀ fuel l, l.length ≤ fuel → noAdjSeps (collapseSepsAux fuel l) ∧ (∀ h, (collapseSepsAux fuel l).head? = some h → isSepChar h = true → ∃ c, l.head? = some c ∧ isSepChar c = true) := by
  intro fuel
  induction fuel with
  | zero =>
    intro l hl
    have : l = [] := List.length_eq_zero.mp (Nat.le_zero.mp hl)
    subst this
    exact ⟨List.chain'_nil, by intro h hh; simp [collapseSepsAux] at hh⟩
  | succ fuel ih =>
    intro l hl
    match l with
    | [] => exact ⟨List.chain'_nil, by intro h hh; simp [collapseSepsAux] at hh⟩
    | [c0] =>
      refine ⟨List.chain'_singleton _, ?_⟩
      intro h hh hsep
      simp only [collapseSepsAux, List.head?_cons, Option.some.injEq] at hh
      exact ⟨c0, rfl, hh ▸ hsep⟩
    | c0 :: c2 :: rest2 =>
      simp only [collapseSepsAux]
      have hl2 : rest2.length + 2 ≤ fuel + 1 := by
        simp only [List.length_cons] at hl
        omega
      by_cases h0 : isSepChar c0
      · rw [if_pos h0]
        by_cases h2 : isSepChar c2
        · rw [if_pos h2]
          have hlen : (rest2.dropWhile isSepChar).length ≤ fuel := by
            have h1 : (rest2.dropWhile isSepChar).length ≤ rest2.length := (List.dropWhile_sublist isSepChar).length_le
            omega
          obtain ⟨ihc, ihh⟩ := ih _ hlen
          constructor
          · unfold noAdjSeps
            rw [List.chain'_cons']
            refine ⟨?_, ihc⟩
            intro h hh
            intro ⟨_, hsh⟩
            obtain ⟨c', hc', hsc'⟩ := ihh h hh hsh
            exact absurd hsc' (by simpa using head?_dropWhile_not isSepChar _ c' hc')
          · intro h hh _
            simp only [List.head?_cons, Option.some.injEq] at hh
            exact ⟨c0, rfl, h0⟩
        · rw [if_neg h2]
          have hlen : (c2 :: rest2).length ≤ fuel := by
            simp only [List.length_cons]
            omega
          obtain ⟨ihc, ihh⟩ := ih _ hlen
          constructor
          · unfold noAdjSeps
            rw [List.chain'_cons']
            refine ⟨?_, ihc⟩
            intro h hh
            intro ⟨_, hsh⟩
            obtain ⟨c', hc', hsc'⟩ := ihh h hh hsh
            simp only [List.head?_cons, Option.some.injEq] at hc'
            exact h2 (hc' ▸ hsc')
          · intro h hh _
            simp only [List.head?_cons, Option.some.injEq] at hh
            exact ⟨c0, rfl, h0⟩
      · rw [if_neg h0]
        have hlen : (c2 :: rest2).length ≤ fuel := by
          simp only [List.length_cons]
          omega
        obtain ⟨ihc, ihh⟩ := ih _ hlen
        constructor
        · unfold noAdjSeps
          rw [List.chain'_cons']
          refine ⟨?_, ihc⟩
          intro h _
          intro ⟨hs0, _⟩
          exact h0 hs0
        · intro h hh hsep
          simp only [List.head?_cons, Option.some.injEq] at hh
          exact absurd (hh ▸ hsep) h0

theorem collapseSepsAux_id : ∀ fuel l, l.length ≤ fuel → noAdjSeps l → collapseSepsAux fuel l = l := by
  intro fuel
  induction fuel with
  | zero => intro l _ _; rfl
  | succ fuel ih =>
    intro l hl hchain
    match l with
    | [] => rfl
    | [c0] => rfl
    | c0 :: c2 :: rest2 =>
      simp only [collapseSepsAux]
      have hlen : (c2 :: rest2).length ≤ fuel := by
        simp only [List.length_cons] at hl ⊢
        omega
      have htl : collapseSepsAux fuel (c2 :: rest2) = c2 :: rest2 :=
        ih _ hlen (List.chain'_cons.mp hchain).2
      by_cases h0 : isSepChar c0
      · rw [if_pos h0]
        have hR : ¬(isSepChar c0 = true ∧ isSepChar c2 = true) := (List.chain'_cons.mp hchain).1
        have h2 : ¬ isSepChar c2 = true := fun hc => hR ⟨h0, hc⟩
        rw [if_neg h2, htl]
      · rw [if_neg h0, htl]

theorem replaceDoubleColon_id : ∀ l : List Char, (∀ c ∈ l, c ≠ ':') → replaceDoubleColon l = l := by
  intro l
  induction l with
  | nil => intro _; rfl
  | cons c1 t ih =>
    intro h
    match t with
    | [] => rfl
    | c2 :: rest =>
      rw [replaceDoubleColon]
      have h1 : c1 ≠ ':' := h c1 (List.mem_cons_self _ _)
      rw [if_neg (by simp [h1])]
      rw [ih fun x hx => h x (List.mem_cons_of_mem _ hx)]

theorem dropIllegal_id (l : List Char) (h : ∀ c ∈ l, legalTagChar c) : dropIllegal l = l := by
  unfold dropIllegal
  induction l with
  | nil => rfl
  | cons c t ih =>
    have hc : legalTagChar c := h c (List.mem_cons_self _ _)
    have hfix : (if isWordChar c || c = '.' then c else '-') = c := by
      rcases hc with h1 | h1 | h1
      · rw [if_pos (by simp [h1])]
      · rw [if_pos (by simp [h1])]
      · subst h1; rw [if_neg (by decide)]
    simp only [List.map_cons, hfix, List.cons.injEq, true_and]
    exact ih fun x hx => h x (List.mem_cons_of_mem _ hx)

/-- C8: `rectify_docker_tag` is idempotent, every character of its
output lies in the legal reference alphabet (word characters, `.`, and
the separator), and no two consecutive output characters are
separators. -/
theorem c8_rectify_idempotent_legal : ∀ s : String, rectify_docker_tag (rectify_docker_tag s) = rectify_docker_tag s ∧ (∀ c ∈ (rectify_docker_tag s).data, legalTagChar c) ∧ noAdjSeps (rectify_docker_tag s).data := by
  intro s
  have hleg : ∀ c ∈ (rectify_docker_tag s).data, legalTagChar c := by
    intro c hc
    exact collapseSepsAux_mem legalTagChar (Or.inr (Or.inr rfl)) _ _ (dropIllegal_mem _) c hc
  have hchain : noAdjSeps (rectify_docker_tag s).data :=
    (collapseSepsAux_chain _ _ le_rfl).1
  refine ⟨?_, hleg, hchain⟩
  show rectify_docker_tag (rectify_docker_tag s) = rectify_docker_tag s
  have hcolon : ∀ c ∈ (rectify_docker_tag s).data, c ≠ ':' := fun c hc => legalTagChar_ne_colon (hleg c hc)
  apply String.ext
  show collapseSeps (dropIllegal (replaceDoubleColon (rectify_docker_tag s).data)) = (rectify_docker_tag s).data
  rw [replaceDoubleColon_id _ hcolon, dropIllegal_id _ hleg]
  exact collapseSepsAux_id _ _ le_rfl hchain

/-- Witness for C8 at a concrete tag. -/
theorem c8_witness : rectify_docker_tag (rectify_docker_tag "lib::name--x_.y") = rectify_docker_tag "lib::name--x_.y" :=
  (c8_rectify_idempotent_legal "lib::name--x_.y").1

/-! ### Dockerfile rewriting (`rewrite_project_to_cached_project`)

The text transformation reads the original Dockerfile, prepends
`"ARG CACHE_IMAGE=" + cached_image_name`, applies
`re.sub(r"FROM gcr.io/oss-fuzz-base/base-builder.*", "FROM $CACHE_IMAGE", ...)`,
then scans the resulting text line by line recording the first `ARG`
line, the first `FROM` line and the last two `COPY` lines, and finally
emits every line, commenting out (`"# "` marker) each line whose index
was not recorded. -/

/-- Match a literal character sequence at the head of the input,
returning the remainder. -/
def matchLit : List Char → List Char → Option (List Char)
  | [], rest => some rest
  | _ :: _, [] => none
  | p :: ps, c :: cs => if c = p then matchLit ps cs else none

/-- One attempted match of the pattern
`FROM gcr.io/oss-fuzz-base/base-builder.*` at the head of the input:
literal `FROM gcr`, a wildcard for the `.` (any character except a
newline), literal `io/oss-fuzz-base/base-builder`, then greedy `.*` up
to the end of the line.  Returns the remainder after the match. -/
def matchBase (l : List Char) : Option (List Char) :=
  match matchLit ("FROM gcr".data) l with
  | none => none
  | some r1 =>
    match r1 with
    | [] => none
    | c :: r2 =>
      if c = '\n' then none
      else
        match matchLit ("io/oss-fuzz-base/base-builder".data) r2 with
        | none => none
        | some r3 => some (r3.dropWhile (fun x => x ≠ '\n'))

/-- `re.sub` over the whole text: scan left to right, replacing each
non-overlapping match by `FROM $CACHE_IMAGE` and continuing after it.
`fuel` bounds the recursion; every step consumes at least one input
character, so the input length is enough fuel. -/
def substBaseAux : Nat → List Char → List Char
  | 0, l => l
  | _ + 1, [] => []
  | fuel + 1, c :: cs =>
    match matchBase (c :: cs) with
    | some rest => ("FROM $CACHE_IMAGE".data) ++ substBaseAux fuel rest
    | none => c :: substBaseAux fuel cs

def substBase (l : List Char) : List Char := substBaseAux l.length l

/-- Python's `str.split` on a newline: always at least one (possibly
empty) field, one extra empty field for a trailing newline. -/
def splitNl : List Char → List (List Char)
  | [] => [[]]
  | c :: cs =>
    if c = '\n' then [] :: splitNl cs
    else
      match splitNl cs with
      | [] => [[c]]
      | l :: ls => (c :: l) :: ls

/-- The four indices recorded by the classification scan
(`arg_line`, `from_line`, `copy_fuzzer_line`, `copy_build_line`),
each initialized to -1. -/
structure ScanState where
  argLine : Int
  fromLine : Int
  copyFuzzerLine : Int
  copyBuildLine : Int
deriving DecidableEq

/-- One iteration of the classification loop, mirroring the three
sequential `if` statements of the source. -/
def scanStep (st : ScanState) (idx : Nat) (line : List Char) : ScanState :=
  let st1 := if ("ARG".data.isPrefixOf line) ∧ st.argLine = -1 then { st with argLine := (idx : Int) } else st
  let st2 := if ("FROM".data.isPrefixOf line) ∧ st1.fromLine = -1 then { st1 with fromLine := (idx : Int) } else st1
  if "COPY".data.isPrefixOf line then { st2 with copyFuzzerLine := st2.copyBuildLine, copyBuildLine := (idx : Int) } else st2

/-- The classification scan over the enumerated lines. -/
def scanLines (lines : List (List Char)) : ScanState :=
  lines.enum.foldl (fun st p => scanStep st p.1 p.2) ⟨-1, -1, -1, -1⟩

/-- Membership of a line index in `lines_to_keep`. -/
def keepLine (st : ScanState) (idx : Nat) : Bool :=
  ((idx : Int) = st.argLine) || ((idx : Int) = st.fromLine) || ((idx : Int) = st.copyFuzzerLine) || ((idx : Int) = st.copyBuildLine)

/-- The emission loop: kept lines verbatim, all others prefixed with the
comment marker; each line followed by a newline. -/
def emitLines (st : ScanState) (lines : List (List Char)) : List Char :=
  lines.enum.foldl (fun acc p => acc ++ (if keepLine st p.1 then p.2 ++ ['\n'] else '#' :: ' ' :: (p.2 ++ ['\n']))) []

/-- The text after the `ARG` declaration is prepended as the new first
line. -/
def prependedContent (cachedImageName content : String) : String :=
  ("ARG CACHE_IMAGE=" ++ cachedImageName) ++ "\n" ++ content

/-- The lines the source actually scans and emits: the prepended text
after the base-builder substitution, split on newlines. -/
def transformedLines (cachedImageName content : String) : List (List Char) :=
  splitNl (substBase (prependedContent cachedImageName content).data)

/-- The scan state the source records (computed on the transformed
text, after the `ARG` prepend and the `FROM` substitution). -/
def recordedScan (cachedImageName content : String) : ScanState :=
  scanLines (transformedLines cachedImageName content)

/-- The full text transformation performed by
`rewrite_project_to_cached_project` on the Dockerfile contents. -/
def rewriteContent (cachedImageName content : String) : String :=
  ⟨emitLines (recordedScan cachedImageName content) (transformedLines cachedImageName content)⟩

/-! ### Filesystem model

The staged project's directory is modeled as a partial map from file
name to file content.  `copy`/`open` of a missing file raises in
Python; state transitions that raise are modeled as `none`. -/

abbrev FS := String → Option String

def FS.update (fs : FS) (k v : String) : FS := fun n => if n = k then some v else fs n

/-- `f"Dockerfile_{sanitizer}_cached"`. -/
def cachedDockerfileName (sanitizer : String) : String := "Dockerfile_" ++ sanitizer ++ "_cached"

/-- `rewrite_project_to_cached_project` as a transition on the staged
project's directory: early return when the cached Dockerfile already
exists; otherwise back up `Dockerfile` to `Dockerfile_original` exactly
once, read the original, and write the transformed text to the
sanitizer-specific cached path. -/
def rewrite_project_to_cached_project (projectName sanitizer : String) (fs : FS) : Option FS :=
  if (fs (cachedDockerfileName sanitizer)).isSome then some fs
  else
    match (if (fs "Dockerfile_original").isSome then some fs
           else
             match fs "Dockerfile" with
             | some v => some (FS.update fs "Dockerfile_original" v)
             | none => none) with
    | none => none
    | some fs1 =>
      match fs1 "Dockerfile_original" with
      | none => none
      | some content =>
        some (FS.update fs1 (cachedDockerfileName sanitizer) (rewriteContent (cacheImageName projectName sanitizer) content))

/-- `prepare_build` as a transition on the staged project's directory.
`enableCaching` is the process-wide `ENABLE_CACHING` switch and `cached`
the result of the `is_image_cached` registry query.  The function only
copies: the cached Dockerfile (or the original one) over the active
`Dockerfile` path; a missing copy source raises (`none`). -/
def prepare_build (enableCaching cached : Bool) (sanitizer : String) (fs : FS) : Option FS :=
  if !enableCaching then some fs
  else if cached then
    match fs (cachedDockerfileName sanitizer) with
    | some v => some (FS.update fs "Dockerfile" v)
    | none => none
  else
    match fs "Dockerfile_original" with
    | some v => some (FS.update fs "Dockerfile" v)
    | none => none

/-! ### Cached image creation (`_prepare_image_cache`, `prepare_cached_images`)

The external effects of one sanitizer's iteration are summarized by a
`SanOutcome`: whether the image was already cached, whether it is cached
after the pull attempt, and whether the instrumented build and the
container commit succeed.  (The pull command's own failure is caught and
only logged; the container-removal failure is also only logged.) -/

structure SanOutcome where
  alreadyCached : Bool
  pulledCached : Bool
  buildOk : Bool
  commitOk : Bool

/-- The sanitizer loop of `_prepare_image_cache`.  Returns the final
result (`False` aborts the whole function) together with the list of
sanitizers whose iteration was entered. -/
def prepareImageCacheLoop (oc : String → SanOutcome) : List String → Bool × List String
  | [] => (true, [])
  | s :: rest =>
    if (oc s).alreadyCached then
      ((prepareImageCacheLoop oc rest).1, s :: (prepareImageCacheLoop oc rest).2)
    else if (oc s).pulledCached then
      ((prepareImageCacheLoop oc rest).1, s :: (prepareImageCacheLoop oc rest).2)
    else if !(oc s).buildOk then (false, [s])
    else if !(oc s).commitOk then (false, [s])
    else
      ((prepareImageCacheLoop oc rest).1, s :: (prepareImageCacheLoop oc rest).2)

/-- `_prepare_image_cache`: skip entirely without a cache build script,
else run the loop over the fixed sanitizer list. -/
def prepareImageCache (hasScript : Bool) (oc : String → SanOutcome) : Bool × List String :=
  if !hasScript then (false, [])
  else prepareImageCacheLoop oc ["address", "coverage"]

/-- `prepare_cached_images`: the per-project loop, which ignores the
result of `_prepare_image_cache` and always continues.  `projects` is
the deduplicated project set, `hs`/`oc` the per-project script presence
and per-project per-sanitizer external outcomes. -/
def prepareCachedImages (projects : List String) (hs : String → Bool) (oc : String → String → SanOutcome) : List (String × Bool) :=
  projects.map fun p => (p, (prepareImageCache (hs p) (oc p)).1)

/-! ### Small facts about the filesystem model -/

theorem cachedDockerfileName_ne_original (s : String) : cachedDockerfileName s ≠ "Dockerfile_original" := by
  intro h
  have h1 := congrArg (fun t : String => t.data.reverse.head?) h
  have h3 : (cachedDockerfileName s).data.reverse.head? = some 'd' := by
    show (("Dockerfile_" ++ s ++ "_cached").data).reverse.head? = some 'd'
    rw [String.data_append, List.reverse_append]
    rfl
  simp only at h1
  rw [h3] at h1
  exact absurd h1 (by decide)

/-- A later rewrite call never modifies an existing
`Dockerfile_original` backup. -/
theorem rewrite_preserves_original (p2 s2 : String) (fs fs'' : FS) (v : String) (hv : fs "Dockerfile_original" = some v) (h : rewrite_project_to_cached_project p2 s2 fs = some fs'') : fs'' "Dockerfile_original" = some v := by
  by_cases hc : (fs (cachedDockerfileName s2)).isSome
  · rw [rewrite_project_to_cached_project.eq_def, if_pos hc] at h
    cases h
    exact hv
  · have hso : (fs "Dockerfile_original").isSome := by rw [hv]; rfl
    rw [rewrite_project_to_cached_project.eq_def, if_neg hc, if_pos hso] at h
    simp only [hv] at h
    cases h
    show FS.update fs (cachedDockerfileName s2) _ "Dockerfile_original" = some v
    unfold FS.update
    rw [if_neg (fun hh => cachedDockerfileName_ne_original s2 hh.symm)]
    exact hv

/-- C9: `rewrite_project_to_cached_project` is idempotent per staged
project and sanitizer — once a first genuine rewrite succeeds, calling
it again with the artifact present returns the state unchanged (so the
artifact stays byte-identical) — and the `Dockerfile_original` backup
created by the first rewrite is never modified by any later rewrite
invocation for any sanitizer. -/
theorem c9_rewrite_idempotent (p s : String) (fs fs' : FS) (hfirst : fs (cachedDockerfileName s) = none) (hres : rewrite_project_to_cached_project p s fs = some fs') : rewrite_project_to_cached_project p s fs' = some fs' ∧ ∃ v, fs' "Dockerfile_original" = some v ∧ ∀ p2 s2 fs'', rewrite_project_to_cached_project p2 s2 fs' = some fs'' → fs'' "Dockerfile_original" = some v := by
  have hc : ¬ (fs (cachedDockerfileName s)).isSome := by rw [hfirst]; simp
  rw [rewrite_project_to_cached_project.eq_def, if_neg hc] at hres
  by_cases ho : (fs "Dockerfile_original").isSome
  · obtain ⟨w, hw⟩ := Option.isSome_iff_exists.mp ho
    rw [if_pos ho] at hres
    simp only [hw] at hres
    cases hres
    have horig : FS.update fs (cachedDockerfileName s) (rewriteContent (cacheImageName p s) w) "Dockerfile_original" = some w := by
      unfold FS.update
      rw [if_neg (fun hh => cachedDockerfileName_ne_original s hh.symm)]
      exact hw
    refine ⟨?_, w, horig, ?_⟩
    · rw [rewrite_project_to_cached_project.eq_def, if_pos ?_]
      unfold FS.update
      rw [if_pos rfl]
      rfl
    · intro p2 s2 fs'' h2
      exact rewrite_preserves_original p2 s2 _ fs'' w horig h2
  · rw [if_neg ho] at hres
    cases hdf : fs "Dockerfile" with
    | none => rw [hdf] at hres; cases hres
    | some v0 =>
      rw [hdf] at hres
      have hb : FS.update fs "Dockerfile_original" v0 "Dockerfile_original" = some v0 := by
        unfold FS.update
        rw [if_pos rfl]
      simp only [hb] at hres
      cases hres
      have horig : FS.update (FS.update fs "Dockerfile_original" v0) (cachedDockerfileName s) (rewriteContent (cacheImageName p s) v0) "Dockerfile_original" = some v0 := by
        unfold FS.update
        rw [if_neg (fun hh => cachedDockerfileName_ne_original s hh.symm), if_pos rfl]
      refine ⟨?_, v0, horig, ?_⟩
      · rw [rewrite_project_to_cached_project.eq_def, if_pos ?_]
        show (FS.update _ (cachedDockerfileName s) _ (cachedDockerfileName s)).isSome
        unfold FS.update
        rw [if_pos rfl]
        rfl
      · intro p2 s2 fs'' h2
        exact rewrite_preserves_original p2 s2 _ fs'' v0 horig h2

def fs9 : FS := fun n => if n = "Dockerfile" then some "FROM gcr.io/oss-fuzz-base/base-builder\nRUN b" else none

def fs9' : FS := FS.update (FS.update fs9 "Dockerfile_original" "FROM gcr.io/oss-fuzz-base/base-builder\nRUN b") (cachedDockerfileName "address") (rewriteContent (cacheImageName "libxml2" "address") "FROM gcr.io/oss-fuzz-base/base-builder\nRUN b")

/-- Witness for C9 at a concrete staged project directory. -/
theorem c9_witness : rewrite_project_to_cached_project "libxml2" "address" fs9' = some fs9' ∧ ∃ v, fs9' "Dockerfile_original" = some v ∧ ∀ p2 s2 fs'', rewrite_project_to_cached_project p2 s2 fs9' = some fs'' → fs'' "Dockerfile_original" = some v :=
  c9_rewrite_idempotent "libxml2" "address" fs9 fs9' rfl rfl

/-! ### The rewrite fixture (claims C1 and C3) -/

set_option maxRecDepth 100000

def fixtureLines : List String := ["FROM base-builder", "RUN a", "COPY build.sh .", "COPY fuzzer.cc ."]

def fixtureContent : String := String.intercalate "\n" fixtureLines

/-- C1 counterexample: on the fixture, the emitted text contains no
`FROM $CACHE_IMAGE` line at all — the `FROM base-builder` line does not
match the source's pattern `FROM gcr.io/oss-fuzz-base/base-builder.*`,
so the claimed rewrite of the `FROM` line to reference the cache-image
variable does not happen; the original `FROM` line is kept verbatim
instead. -/
theorem c1_counterexample : "FROM $CACHE_IMAGE".data ∉ splitNl (rewriteContent (cacheImageName "libxml2" "address") fixtureContent).data ∧ "FROM base-builder".data ∈ splitNl (rewriteContent (cacheImageName "libxml2" "address") fixtureContent).data := by
  decide

/-- C1 amended: on the fixture with sanitizer `address`, the output
keeps the injected `ARG` line and both `COPY` lines verbatim and emits
`RUN a` behind the comment marker, but the `FROM` line is kept verbatim
as `FROM base-builder`, not rewritten to reference the cache-image
variable (the source's substitution pattern requires the full
`gcr.io/oss-fuzz-base/base-builder` reference). -/
theorem c1_amended_output : rewriteContent (cacheImageName "libxml2" "address") fixtureContent = "ARG CACHE_IMAGE=us-central1-docker.pkg.dev/oss-fuzz/oss-fuzz-gen/libxml2-ofg-cached-address\nFROM base-builder\n# RUN a\nCOPY build.sh .\nCOPY fuzzer.cc .\n" := by
  decide

/-- C3 counterexample: the recorded `from_line` on the fixture is 1 —
the position of the `FROM` line in the text with the inserted `ARG`
declaration — whereas in the original build-definition text the `FROM`
line sits at position 0.  The recorded indices therefore do not refer
to line positions of the original text. -/
theorem c3_counterexample : (recordedScan (cacheImageName "libxml2" "address") fixtureContent).fromLine = 1 ∧ (scanLines (splitNl fixtureContent.data)).fromLine = 0 := by
  decide

/-- C3 amended: the classification scan runs after the `ARG`
declaration is prepended (and after the `FROM` substitution), so the
recorded indices refer to positions in the modified text: on the
fixture the scan records `arg_line = 0` (the injected line itself) and
`from_line/copy` indices one greater than the positions those lines
occupy in the original text. -/
theorem c3_amended_scan_after_insert : recordedScan (cacheImageName "libxml2" "address") fixtureContent = ⟨0, 1, 3, 4⟩ ∧ scanLines (splitNl fixtureContent.data) = ⟨-1, 0, 2, 3⟩ := by
  decide

/-! ### Claims C2 and C4 -/

def addressBuildFails : SanOutcome := ⟨false, false, false, true⟩

/-- C2 counterexample: when the instrumented build for sanitizer
`address` fails (image not already cached, pull unsuccessful), the
sanitizer loop of `_prepare_image_cache` returns immediately: the
`coverage` iteration — whose external outcomes are all favorable — is
never entered, contradicting the claim that caching is still attempted
for every remaining sanitizer of the same project. -/
theorem c2_counterexample : (prepareImageCache true (fun s => if s = "address" then addressBuildFails else ⟨true, true, true, true⟩)).2 = ["address"] ∧ "coverage" ∉ (prepareImageCache true (fun s => if s = "address" then addressBuildFails else ⟨true, true, true, true⟩)).2 := by
  decide

/-- C2 amended: a build failure for one sanitizer aborts
`_prepare_image_cache` for the whole project — the remaining sanitizers
of that project are not attempted — but `prepare_cached_images` ignores
the per-project result, so every project in the set is still
processed regardless of other projects' failures. -/
theorem c2_amended_abort_scope : (∀ o2 : SanOutcome, prepareImageCache true (fun s => if s = "address" then addressBuildFails else o2) = (false, ["address"])) ∧ (∀ (projects : List String) (hs : String → Bool) (oc : String → String → SanOutcome), (prepareCachedImages projects hs oc).map Prod.fst = projects) := by
  constructor
  · intro o2
    rfl
  · intro projects hs oc
    unfold prepareCachedImages
    rw [List.map_map]
    exact List.map_id projects

/-- C4 counterexample: a staged project directory where the registry
check answers true but the rewritten artifact is absent.  The claim
requires `prepare_build` to ensure the artifact exists (invoking the
rewriter if necessary) and install it as the active Dockerfile; the
code instead fails — it never invokes the rewriter. -/
def fsNoArtifact : FS := fun n => if n = "Dockerfile" then some "FROM gcr.io/oss-fuzz-base/base-builder\nRUN b" else if n = "Dockerfile_original" then some "FROM gcr.io/oss-fuzz-base/base-builder\nRUN b" else none

theorem c4_counterexample : prepare_build true true "address" fsNoArtifact = none := by
  rfl

/-- C4 amended: with caching enabled, `prepare_build` only copies: when
the cache-existence check is true it copies the already-existing
rewritten artifact over the active `Dockerfile` (failing, without
invoking the rewriter, when the artifact is absent); when the check is
false it copies the immutable original over the active path. -/
theorem c4_amended_prepare_build : ∀ (sanitizer : String) (fs : FS), (∀ v, fs (cachedDockerfileName sanitizer) = some v → prepare_build true true sanitizer fs = some (FS.update fs "Dockerfile" v)) ∧ (fs (cachedDockerfileName sanitizer) = none → prepare_build true true sanitizer fs = none) ∧ (∀ w, fs "Dockerfile_original" = some w → prepare_build true false sanitizer fs = some (FS.update fs "Dockerfile" w)) := by
  intro sanitizer fs
  refine ⟨?_, ?_, ?_⟩
  · intro v hv
    simp [prepare_build, hv]
  · intro hv
    simp [prepare_build, hv]
  · intro w hw
    simp [prepare_build, hw]

def fsC4 : FS := fun n => if n = cachedDockerfileName "address" then some "CACHED" else if n = "Dockerfile_original" then some "ORIG" else none

/-- Witness for C4's amended statement at a concrete directory. -/
theorem c4_witness : prepare_build true true "address" fsC4 = some (FS.update fsC4 "Dockerfile" "CACHED") ∧ prepare_build true false "address" fsC4 = some (FS.update fsC4 "Dockerfile" "ORIG") :=
  ⟨(c4_amended_prepare_build "address" fsC4).1 "CACHED" rfl, (c4_amended_prepare_build "address" fsC4).2.2 "ORIG" rfl⟩

end OssFuzzGen
